import Mathlib

/-!
Formal model of the ParodyPop audio core.

Shallow embedding of `services/audioService.ts` (class `AudioEngine`) and the
fallback path of `services/geminiService.ts` (`generateParodyLyrics`).
JavaScript numbers are modelled as rationals (`ℚ`); byte streams as `List ℕ`
with each entry in `[0, 256)`.
-/

namespace ParodyPop

/-- JavaScript `x | 0` applied to a number in int32 range: truncation toward
zero. -/
def truncJS (q : ℚ) : ℤ := if q < 0 then ⌈q⌉ else ⌊q⌋

/-- JavaScript `%` on numbers (fmod): `a - b * trunc(a / b)`. -/
def jsMod (a b : ℚ) : ℚ := a - b * (truncJS (a / b) : ℚ)

/-- Model of a decoded `AudioBuffer`: ordered channel sample arrays plus the
sample rate. `getChannelData(i)` is `channels.getD i []`. -/
structure SampleBuffer where
  channels : List (List ℚ)
  sampleRate : ℕ
deriving DecidableEq

/-- `AudioBuffer.length` (frame count). All channels of a real `AudioBuffer`
have this length (see `SampleBuffer.wellFormed`). -/
def SampleBuffer.length (b : SampleBuffer) : ℕ := (b.channels.headD []).length

/-- The `AudioBuffer` invariant: every channel buffer holds exactly
`length` frames. -/
def SampleBuffer.wellFormed (b : SampleBuffer) : Prop :=
  ∀ c ∈ b.channels, c.length = b.length

/-- Sample read `channel[i]`; on a well-formed buffer every in-range read hits
the stored value, so the default `0` is never observed. -/
def sampleAt (b : SampleBuffer) (ch i : ℕ) : ℚ := (b.channels.getD ch []).getD i 0

/- ### Container encoder (`bufferToWav`, audioService.ts lines 215-255) -/

/-- Float-to-int16 conversion of `bufferToWav` lines 247-248:
`sample = Math.max(-1, Math.min(1, channels[i][pos]));`
`sample = (0.5 + sample < 0 ? sample * 32768 : sample * 32767) | 0;` -/
def encodeSample (v : ℚ) : ℤ :=
  let s := max (-1) (min 1 v)
  truncJS (if 0.5 + s < 0 then s * 32768 else s * 32767)

/-- Conversion written from the spec's words (§4.6): clamp to `[-1,1]`, scale
by 32768 when `(0.5 + clamped) < 0` and by 32767 otherwise, truncate to an
integer. Compared against `encodeSample` in the C4 theorem. -/
def encodeSampleSpec (v : ℚ) : ℤ :=
  let c := min (max v (-1)) 1
  truncJS (if 0.5 + c < 0 then c * 32768 else c * 32767)

/-- `DataView.setUint16(pos, v, true)`: two little-endian bytes. -/
def u16LE (v : ℕ) : List ℕ := [v % 256, v / 256 % 256]

/-- `DataView.setUint32(pos, v, true)`: four little-endian bytes. -/
def u32LE (v : ℕ) : List ℕ :=
  [v % 256, v / 256 % 256, v / 65536 % 256, v / 16777216 % 256]

/-- `DataView.setInt16(pos, v, true)`: the 16-bit two's-complement image of
`v`, little-endian. -/
def i16LE (v : ℤ) : List ℕ := u16LE (v % 65536).toNat

/-- Concatenation of a list of byte strings. -/
def concatAll (ls : List (List ℕ)) : List ℕ := ls.foldr (· ++ ·) []

/-- The 44 header bytes written by `bufferToWav` lines 229-241, in write order.
`len` is the total allocation `frames * numOfChan * 2 + 44`; the final field is
`setUint32(length - pos - 4)` with `pos = 40`, i.e. `len - 44`. -/
def wavHeader (numOfChan sampleRate frames : ℕ) : List ℕ :=
  let len := frames * numOfChan * 2 + 44
  u32LE 0x46464952 ++ u32LE (len - 8) ++ u32LE 0x45564157 ++
  u32LE 0x20746d66 ++ u32LE 16 ++ u16LE 1 ++ u16LE numOfChan ++
  u32LE sampleRate ++ u32LE (sampleRate * 2 * numOfChan) ++
  u16LE (numOfChan * 2) ++ u16LE 16 ++ u32LE 0x61746164 ++ u32LE (len - 44)

/-- One loop body iteration of `bufferToWav` lines 246-251 at frame index
`pos`: for each channel in order, the two bytes of the encoded sample. -/
def frameBytes (b : SampleBuffer) (pos : ℕ) : List ℕ :=
  concatAll ((List.range b.channels.length).map
    (fun i => i16LE (encodeSample (sampleAt b i pos))))

/-- `bufferToWav` (lines 215-255). The `ArrayBuffer` of `len` bytes is
zero-initialised; the header writes fill bytes 0-43, then the loop
`while (pos < buffer.length)` runs with `pos` still holding the value 44 left
by the header writes, copying frames `44 .. buffer.length - 1` to consecutive
byte offsets `44 + offset`; the unwritten tail of the allocation stays zero. -/
def bufferToWav (b : SampleBuffer) : List ℕ :=
  let numOfChan := b.channels.length
  let len := b.length * numOfChan * 2 + 44
  let body := concatAll (((List.range b.length).drop 44).map (frameBytes b))
  wavHeader numOfChan b.sampleRate b.length ++ body ++
    List.replicate (len - 44 - body.length) 0

/-- The container body written from the spec's words (C2 / §4.6): all
`frameCount` frames of interleaved 16-bit little-endian signed PCM,
channel-major within each frame, in original channel order. Compared against
`bufferToWav`'s actual body in the C2 theorem. -/
def wavBodySpec (b : SampleBuffer) : List ℕ :=
  concatAll ((List.range b.length).map (frameBytes b))

/- ### Offline renderer (`exportTrack`, audioService.ts lines 182-213) -/

/-- Pad or truncate a channel to the rendering context's frame count. -/
def resizeTo (l : List ℚ) (n : ℕ) : List ℚ :=
  l.take n ++ List.replicate (n - l.length) 0

/-- Modelled from the spec: model of `exportTrack` (lines 182-213) on the
`useKaraoke = false` path. The `OfflineAudioContext` rendering substrate is
external to the repository; per §4.5 it renders the chain
source → gain(volume) → destination into a 2-channel buffer of
`sampleRate * duration = 44100 * length / rate` frames at 44100 Hz, the gain
node multiplying each sample by `volume`, with rate conversion delegated to
the substrate (the identity when the input is already at 44100 Hz, the case
exercised by C1). The rendered buffer is then encoded by `bufferToWav`. -/
def exportTrack (b : SampleBuffer) (volume : ℚ) : List ℕ :=
  let renderLen := 44100 * b.length / b.sampleRate
  bufferToWav
    { channels := [resizeTo ((b.channels.getD 0 []).map (fun x => x * volume)) renderLen,
                   resizeTo ((b.channels.getD 1 []).map (fun x => x * volume)) renderLen],
      sampleRate := 44100 }

/-- The 2-channel, 2-second, 44100 Hz all-zero buffer of the C1 scenario. -/
def zeroBuf : SampleBuffer :=
  { channels := [List.replicate 88200 0, List.replicate 88200 0], sampleRate := 44100 }

/- ### Onset detector (`detectVocalStartTime`, audioService.ts lines 45-76) -/

/-- `maxRms` as accumulated by lines 50-60: fold of `if (rms > maxRms)` over
the per-window RMS energies, starting from 0. -/
def maxRmsOf (energies : List ℚ) : ℚ :=
  energies.foldl (fun m r => if r > m then r else m) 0

/-- The scan loop of `detectVocalStartTime` lines 64-75: walk the energies
with index `i` and the running `sustainedCount`; on a window above threshold
the count increments, and when it reaches 3 the function returns
`Math.max(0, i - 2) * 0.1`; a window at or below threshold resets the count;
falling off the end returns 0. -/
def onsetScan (threshold : ℚ) : List ℚ → ℕ → ℕ → ℚ
  | [], _, _ => 0
  | e :: rest, i, sustainedCount =>
    if e > threshold then
      if sustainedCount + 1 ≥ 3 then ((max 0 ((i : ℤ) - 2) : ℤ) : ℚ) * 0.1
      else onsetScan threshold rest (i + 1) (sustainedCount + 1)
    else onsetScan threshold rest (i + 1) 0

/-- Lines 63-75 of `detectVocalStartTime`, taking as input the list of
per-window RMS energies produced by the windowing pass (lines 50-61):
`threshold = maxRms * 0.15`, then the scan. -/
def detectOnsetFromEnergies (energies : List ℚ) : ℚ :=
  onsetScan (maxRmsOf energies * 0.15) energies 0 0

/- ### Vocal-suppression transform (`createKaraokeBuffer`, lines 78-101) -/

/-- State threaded through the write loop of `createKaraokeBuffer`: the input
buffer (readable through `getChannelData`) and the two output channel arrays
of `newBuffer` (zero-initialised by `ctx.createBuffer`). -/
structure MSState where
  orig : SampleBuffer
  leftOut : List ℚ
  rightOut : List ℚ

/-- One iteration of the loop at lines 91-99: read `l = leftIn[i]`,
`r = rightIn[i]`, compute `side = l - r`, `mixed = side`, and store `mixed`
into both output channels at index `i`. Only the output arrays are written. -/
def karaokeStep (s : MSState) (i : ℕ) : MSState :=
  let l := sampleAt s.orig 0 i
  let r := sampleAt s.orig 1 i
  let side := l - r
  let mixed := side
  { s with leftOut := s.leftOut.set i mixed, rightOut := s.rightOut.set i mixed }

/-- The full write loop `for (let i = 0; i < length; i++)`. -/
def karaokeLoop (b : SampleBuffer) : MSState :=
  (List.range b.length).foldl karaokeStep
    ⟨b, List.replicate b.length 0, List.replicate b.length 0⟩

/-- `createKaraokeBuffer` (lines 78-101): buffers with fewer than 2 channels
are returned as-is; otherwise a fresh 2-channel buffer at the input's frame
count and sample rate is filled by `karaokeLoop`. -/
def createKaraokeBuffer (b : SampleBuffer) : SampleBuffer :=
  if b.channels.length < 2 then b
  else { channels := [(karaokeLoop b).leftOut, (karaokeLoop b).rightOut],
         sampleRate := b.sampleRate }

/-- The per-index channel difference `left[i] - right[i]` over the buffer's
frame range. -/
def sideList (b : SampleBuffer) : List ℚ :=
  (List.range b.length).map (fun i => sampleAt b 0 i - sampleAt b 1 i)

/-- The same buffer with its first two channels exchanged (C7's premise). -/
def swapFirstTwo (b : SampleBuffer) : SampleBuffer :=
  { b with channels :=
      match b.channels with
      | c0 :: c1 :: rest => c1 :: c0 :: rest
      | cs => cs }

/- ### Transport state machine (`play` / `stop` / `getCurrentTime`) -/

/-- The transport-relevant mutable fields of `AudioEngine`: `isPlaying`,
`startTime`, `pauseTime`. Audio node handles are not part of the transport
claims. -/
structure EngineState where
  isPlaying : Bool
  startTime : ℚ
  pauseTime : ℚ
deriving DecidableEq

/-- Field initialisers at lines 15-17. -/
def initState : EngineState := ⟨false, 0, 0⟩

/-- `stop()` (lines 161-167) at context time `now`: when playing, store
`pauseTime = now - startTime` and clear `isPlaying`; otherwise a no-op. -/
def stopOp (now : ℚ) (s : EngineState) : EngineState :=
  if s.isPlaying then ⟨false, s.startTime, now - s.startTime⟩ else s

/-- `play(buffer, ...)` (lines 103-145) at context time `now`, for a buffer of
the given `duration`: an active session is stopped first, then
`offset = pauseTime % buffer.duration`, the source starts at `offset`, and
`startTime = now - offset`. (`stop()` reads the same `currentTime` tick; the
`onended` callback is asynchronous and outside the synchronous transport
operations these claims range over.) -/
def playOp (duration now : ℚ) (s : EngineState) : EngineState :=
  let s1 := if s.isPlaying then stopOp now s else s
  let offset := jsMod s1.pauseTime duration
  ⟨true, now - offset, s1.pauseTime⟩

/-- `getCurrentTime()` (lines 171-176) at context time `now`. -/
def getCurrentTime (now : ℚ) (s : EngineState) : ℚ :=
  if s.isPlaying ∧ s.startTime > 0 then now - s.startTime else s.pauseTime

/-- A user-issued transport operation, tagged with the audio-context time at
which it runs. -/
inductive Event where
  | play (duration now : ℚ)
  | stop (now : ℚ)
deriving DecidableEq

/-- Apply one transport operation. -/
def stepEvent (s : EngineState) (e : Event) : EngineState :=
  match e with
  | .play d now => playOp d now s
  | .stop now => stopOp now s

/-- Run a sequence of transport operations from the initial engine state. -/
def runEvents (es : List Event) : EngineState := es.foldl stepEvent initState

/- ### Lyric generation fallback (`generateParodyLyrics`, geminiService.ts) -/

/-- One timed lyric line (`types.ts`). -/
structure LyricSegment where
  startTime : ℚ
  endTime : ℚ
  text : String
deriving DecidableEq

/-- Result shape of the lyric service (`types.ts`). -/
structure ParodyGenerationResult where
  segments : List LyricSegment
  performanceStyle : String
  voiceAnalysis : String
deriving DecidableEq

/-- The constant returned by the `catch` block of `generateParodyLyrics`
(geminiService.ts lines 85-92). -/
def fallbackResult : ParodyGenerationResult :=
  { segments := [⟨0, 5, "Error generating lyrics."⟩,
                 ⟨5, 10, "Please try again with a clear audio file."⟩],
    performanceStyle := "Spoken word",
    voiceAnalysis := "Error analyzing audio." }

/-- Model of `generateParodyLyrics` (lines 68-93): the remote call, the
empty-response check and the JSON parse are external effects whose combined
outcome is an `Except` value; any thrown failure lands in the `catch` block,
which returns `fallbackResult`; a successfully parsed response is returned
as-is. -/
def generateParodyLyrics (outcome : Except String ParodyGenerationResult) :
    ParodyGenerationResult :=
  match outcome with
  | .ok r => r
  | .error _ => fallbackResult

/-! ## Theorems -/

/-- C4: For every input sample x, the encoder's float-to-int conversion clamps
x to [-1,1], then multiplies the clamped value by 32768 when
(0.5 + clamped value) < 0 and by 32767 otherwise, and truncates to an integer
to obtain the stored 16-bit sample. -/
theorem encodeSample_eq_spec (v : ℚ) : encodeSample v = encodeSampleSpec v := by
  have h : max (-1 : ℚ) (min 1 v) = min (max v (-1)) 1 := by
    simp only [max_def, min_def]
    split_ifs <;> linarith
  simp only [encodeSample, encodeSampleSpec, h]

/-- C6: For every mono (single-channel) input buffer, the vocal-suppression
transform returns a buffer bit-identical to the input. -/
theorem createKaraokeBuffer_mono_id (b : SampleBuffer)
    (h : b.channels.length = 1) : createKaraokeBuffer b = b := by
  simp [createKaraokeBuffer, h]

/-- Witness for C6 at a concrete mono buffer. -/
theorem createKaraokeBuffer_mono_id_witness :
    (⟨[[1, -1/2]], 44100⟩ : SampleBuffer).channels.length = 1 ∧
    createKaraokeBuffer ⟨[[1, -1/2]], 44100⟩ = ⟨[[1, -1/2]], 44100⟩ :=
  ⟨rfl, createKaraokeBuffer_mono_id _ rfl⟩

/-- C9: On any failure of the lyric-generation call, the caller receives the
deterministic fallback: exactly two segments,
{0, 5, "Error generating lyrics."} and
{5, 10, "Please try again with a clear audio file."}, plus the placeholder
performance-style and voice-analysis strings. -/
theorem generateParodyLyrics_fallback (e : String) :
    (generateParodyLyrics (Except.error e)).segments =
      [⟨0, 5, "Error generating lyrics."⟩,
       ⟨5, 10, "Please try again with a clear audio file."⟩] ∧
    (generateParodyLyrics (Except.error e)).performanceStyle = "Spoken word" ∧
    (generateParodyLyrics (Except.error e)).voiceAnalysis =
      "Error analyzing audio." :=
  ⟨rfl, rfl, rfl⟩

/-- C10: When the engine is playing but startTime equals 0, the current-time
query returns the stored pausedOffset instead of now minus startTime; the
elapsed-time formula is applied only when startTime is strictly positive. -/
theorem getCurrentTime_startTime_zero (s : EngineState) (t : ℚ)
    (hp : s.isPlaying = true) :
    (s.startTime = 0 → getCurrentTime t s = s.pauseTime) ∧
    (0 < s.startTime → getCurrentTime t s = t - s.startTime) := by
  constructor
  · intro h0
    simp [getCurrentTime, h0]
  · intro hpos
    simp [getCurrentTime, hp, hpos]

/-- Witness for C10: a playing state with startTime 0 reports the paused
offset, a playing state with positive startTime reports elapsed time. -/
theorem getCurrentTime_startTime_zero_witness :
    getCurrentTime 3 ⟨true, 0, 5⟩ = 5 ∧ getCurrentTime 7 ⟨true, 2, 5⟩ = 7 - 2 :=
  ⟨(getCurrentTime_startTime_zero ⟨true, 0, 5⟩ 3 rfl).1 rfl,
   (getCurrentTime_startTime_zero ⟨true, 2, 5⟩ 7 rfl).2 (by norm_num)⟩

/-- The implicit stop performed by `play` coincides with `stopOp` whether or
not the engine was playing, because `stop()` on a stopped engine is a no-op. -/
theorem playOp_eq (d t0 : ℚ) (s : EngineState) :
    playOp d t0 s = ⟨true, t0 - jsMod (stopOp t0 s).pauseTime d,
                     (stopOp t0 s).pauseTime⟩ := by
  by_cases h : s.isPlaying <;> simp [playOp, stopOp, h]

/-- C8 counterexample: for the play/stop/play trace
play(dur 10) at 0, stop at 3, play(dur 10) at 3, the query at wall time 7
returns the stored paused offset 3, not elapsed-since-resume plus the offset
stored at the stop (which is (7-3) + 3 = 7): the resumed session has
startTime = 3 - 3 = 0, so the elapsed-time formula is skipped. -/
theorem transport_resume_counterexample :
    getCurrentTime 7 (playOp 10 3 (runEvents [.play 10 0, .stop 3])) ≠
      (7 - 3) + jsMod ((stopOp 3 (runEvents [.play 10 0, .stop 3])).pauseTime) 10 := by
  simp [getCurrentTime, playOp, stopOp, runEvents, stepEvent, initState,
    jsMod, truncJS]
  norm_num

/-- C8 (amended): for every sequence of play/stop/play operations, provided
the resumed session's transport start reference `now - offset` is strictly
positive, the current-time query after the resume equals the wall-clock time
elapsed since the resume plus the offset stored at the most recent stop,
reduced modulo the track duration; and once stopped, the query returns the
stored paused offset. -/
theorem transport_resume_amended (es : List Event) (d t0 t t1 t2 : ℚ)
    (hpos : 0 < (playOp d t0 (runEvents es)).startTime) :
    getCurrentTime t (playOp d t0 (runEvents es)) =
      (t - t0) + jsMod ((stopOp t0 (runEvents es)).pauseTime) d ∧
    getCurrentTime t2 (stopOp t1 (playOp d t0 (runEvents es))) =
      (stopOp t1 (playOp d t0 (runEvents es))).pauseTime := by
  rw [playOp_eq] at hpos ⊢
  constructor
  · simp [getCurrentTime, hpos]
    ring
  · simp [getCurrentTime, stopOp]

/-- Witness for C8 (amended) on the trace play at 0, stop at 3, resume at 5:
the start reference is 5 - 3 = 2 > 0, the query at 7 gives (7-5) + 3, and
after a further stop at 8 the query at 9 gives the stored offset. -/
theorem transport_resume_amended_witness :
    0 < (playOp 10 5 (runEvents [.play 10 0, .stop 3])).startTime ∧
    (getCurrentTime 7 (playOp 10 5 (runEvents [.play 10 0, .stop 3])) =
      (7 - 5) + jsMod ((stopOp 5 (runEvents [.play 10 0, .stop 3])).pauseTime) 10 ∧
    getCurrentTime 9 (stopOp 8 (playOp 10 5 (runEvents [.play 10 0, .stop 3]))) =
      (stopOp 8 (playOp 10 5 (runEvents [.play 10 0, .stop 3]))).pauseTime) :=
  ⟨by simp [playOp, stopOp, runEvents, stepEvent, initState, jsMod, truncJS]
      norm_num,
   transport_resume_amended [.play 10 0, .stop 3] 10 5 7 8 9
    (by simp [playOp, stopOp, runEvents, stepEvent, initState, jsMod, truncJS]
        norm_num)⟩

/-- Scanning a run of below-threshold windows from a zero counter just
advances the window index. -/
theorem onsetScan_append_below (T : ℚ) (l1 l2 : List ℚ) (h : ∀ e ∈ l1, ¬ T < e)
    (i : ℕ) :
    onsetScan T (l1 ++ l2) i 0 = onsetScan T l2 (i + l1.length) 0 := by
  induction l1 generalizing i with
  | nil => simp
  | cons e l1 ih =>
    have he : ¬ e > T := h e (List.mem_cons_self _ _)
    simp only [List.cons_append, onsetScan, if_neg he, List.append_eq]
    rw [ih (fun x hx => h x (List.mem_cons_of_mem _ hx)) (i + 1)]
    congr 1
    simp
    omega

/-- Three consecutive above-threshold windows starting at window index `i`
make the scan return `Math.max(0, (i+2) - 2) * 0.1 = i * 0.1`. -/
theorem onsetScan_trigger (T a b c : ℚ) (rest : List ℚ) (i : ℕ)
    (ha : T < a) (hb : T < b) (hc : T < c) :
    onsetScan T (a :: b :: c :: rest) i 0 = (i : ℚ) * 0.1 := by
  simp only [onsetScan, gt_iff_lt, if_pos ha, if_pos hb, if_pos hc]
  norm_num
  rw [show ((i : ℚ) + 1 + 1 - 2) = (i : ℚ) by ring]
  exact max_eq_right (Nat.cast_nonneg i)

/-- C3: for every energy profile in which all 0.1-second analysis windows are
below `maxRMS * 0.15` except three consecutive windows — the run occupying
window indices `pre.length`, `pre.length + 1`, `pre.length + 2`, so that the
consecutive-above-threshold counter reaches 3 at window `k = pre.length + 2` —
the onset detector returns `max(0, k - 2) * 0.1`, which equals the index of
the first window of the three-window run times 0.1 seconds. -/
theorem detectOnset_run (pre post : List ℚ) (a b c : ℚ)
    (ha : maxRmsOf (pre ++ a :: b :: c :: post) * 0.15 < a)
    (hb : maxRmsOf (pre ++ a :: b :: c :: post) * 0.15 < b)
    (hc : maxRmsOf (pre ++ a :: b :: c :: post) * 0.15 < c)
    (hpre : ∀ e ∈ pre, e < maxRmsOf (pre ++ a :: b :: c :: post) * 0.15)
    (hpost : ∀ e ∈ post, e < maxRmsOf (pre ++ a :: b :: c :: post) * 0.15) :
    detectOnsetFromEnergies (pre ++ a :: b :: c :: post) = (pre.length : ℚ) * 0.1 ∧
    (pre.length : ℚ) * 0.1 =
      ((max 0 (((pre.length + 2 : ℕ) : ℤ) - 2) : ℤ) : ℚ) * 0.1 := by
  constructor
  · rw [detectOnsetFromEnergies,
      onsetScan_append_below _ _ _ (fun e he => not_lt_of_gt (hpre e he)) 0,
      onsetScan_trigger _ _ _ _ _ _ ha hb hc]
    norm_num
  · have h2 : (max 0 (((pre.length + 2 : ℕ) : ℤ) - 2) : ℤ) = (pre.length : ℤ) := by
      push_cast
      omega
    rw [h2]
    norm_num

/-- Witness for C3: the profile `[0.1, 0.1, 0.1, 1, 1, 1, 0]` has its
three-window run starting at window 3, and the detector reports 0.3 s. -/
theorem detectOnset_run_witness :
    (∀ e ∈ ([0.1, 0.1, 0.1] : List ℚ),
      e < maxRmsOf ([0.1, 0.1, 0.1] ++ 1 :: 1 :: 1 :: [0]) * 0.15) ∧
    detectOnsetFromEnergies ([0.1, 0.1, 0.1] ++ 1 :: 1 :: 1 :: [0]) =
      ((3 : ℕ) : ℚ) * 0.1 := by
  have hmax : maxRmsOf ([(0.1 : ℚ), 0.1, 0.1] ++ 1 :: 1 :: 1 :: [0]) = 1 := by
    norm_num [maxRmsOf]
  have hlt : ∀ e ∈ ([0.1, 0.1, 0.1] : List ℚ),
      e < maxRmsOf ([0.1, 0.1, 0.1] ++ 1 :: 1 :: 1 :: [0]) * 0.15 := by
    intro e he
    rw [hmax]
    fin_cases he <;> norm_num
  refine ⟨hlt, ?_⟩
  have h3 := (detectOnset_run [0.1, 0.1, 0.1] [0] 1 1 1
      (by rw [hmax]; norm_num) (by rw [hmax]; norm_num) (by rw [hmax]; norm_num)
      hlt
      (by intro e he; rw [hmax]; fin_cases he <;> norm_num)).1
  simpa using h3

/-- Reading a list at the index just written returns the written value. -/
theorem getD_set_self (a : ℚ) :
    ∀ (l : List ℚ) (i : ℕ), i < l.length → (l.set i a).getD i 0 = a := by
  intro l
  induction l with
  | nil => intro i h; simp at h
  | cons x xs ih =>
    intro i h
    cases i with
    | zero => rfl
    | succ j => exact ih j (by simpa using h)

/-- Writing one index leaves every other index unchanged. -/
theorem getD_set_ne (a : ℚ) :
    ∀ (l : List ℚ) (i j : ℕ), i ≠ j → (l.set i a).getD j 0 = l.getD j 0 := by
  intro l
  induction l with
  | nil => intro i j _; simp [List.set]
  | cons x xs ih =>
    intro i j hne
    cases i with
    | zero =>
      cases j with
      | zero => exact absurd rfl hne
      | succ j2 => rfl
    | succ i2 =>
      cases j with
      | zero => rfl
      | succ j2 => exact ih i2 j2 (fun h => hne (by rw [h]))

/-- A fold of index writes preserves the list length. -/
theorem length_foldl_set (f : ℕ → ℚ) :
    ∀ (l : List ℕ) (init : List ℚ),
      (l.foldl (fun acc i => acc.set i (f i)) init).length = init.length := by
  intro l
  induction l with
  | nil => intro init; rfl
  | cons i l ih => intro init; rw [List.foldl_cons, ih]; exact List.length_set ..

/-- After a fold of writes `acc.set i (f i)`, an index holds `f` of itself
when it was visited and its original value otherwise. -/
theorem foldl_set_getD (f : ℕ → ℚ) :
    ∀ (l : List ℕ) (init : List ℚ) (j : ℕ), j < init.length →
      (l.foldl (fun acc i => acc.set i (f i)) init).getD j 0 =
        if j ∈ l then f j else init.getD j 0 := by
  intro l
  induction l with
  | nil => intro init j _; simp
  | cons i l ih =>
    intro init j hj
    rw [List.foldl_cons, ih _ j (by rw [List.length_set]; exact hj)]
    by_cases hjl : j ∈ l
    · simp [hjl]
    · by_cases hij : i = j
      · subst hij
        rw [if_neg hjl, if_pos (List.mem_cons_self i l), getD_set_self _ _ _ hj]
      · rw [if_neg hjl, getD_set_ne _ _ _ _ hij, if_neg (fun hm => by
          rcases List.mem_cons.mp hm with h1 | h2
          · exact hij h1.symm
          · exact hjl h2)]

/-- Lists of equal length agreeing at every in-range index are equal. -/
theorem list_eq_of_getD :
    ∀ (l1 l2 : List ℚ), l1.length = l2.length →
      (∀ j, j < l1.length → l1.getD j 0 = l2.getD j 0) → l1 = l2 := by
  intro l1
  induction l1 with
  | nil =>
    intro l2 hlen _
    exact (List.eq_nil_of_length_eq_zero hlen.symm).symm
  | cons x xs ih =>
    intro l2 hlen hval
    cases l2 with
    | nil => simp at hlen
    | cons y ys =>
      have hx : x = y := hval 0 (by simp)
      have : xs = ys := ih ys (by simpa using hlen)
        (fun j hj => hval (j + 1) (by simpa using Nat.succ_lt_succ hj))
      rw [hx, this]

/-- Indexing into a map over `List.range`. -/
theorem getD_range_map (f : ℕ → ℚ) (n j : ℕ) (h : j < n) :
    ((List.range n).map f).getD j 0 = f j := by
  rw [List.getD_eq_getElem _ _ (by simpa using h)]
  simp

/-- Writing `f i` at every index of `List.range n` into a length-`n` list
produces exactly `(List.range n).map f`. -/
theorem foldl_set_range_map (f : ℕ → ℚ) (n : ℕ) (init : List ℚ)
    (h : init.length = n) :
    (List.range n).foldl (fun acc i => acc.set i (f i)) init =
      (List.range n).map f := by
  apply list_eq_of_getD
  · rw [length_foldl_set, h, List.length_map, List.length_range]
  · intro j hj
    rw [length_foldl_set, h] at hj
    rw [foldl_set_getD f _ _ j (by rw [h]; exact hj), if_pos (List.mem_range.mpr hj),
      getD_range_map f n j hj]

/-- The write loop of `createKaraokeBuffer` never touches the input buffer:
the `orig` component of the loop state is preserved. -/
theorem karaokeFold_orig :
    ∀ (l : List ℕ) (s : MSState), (l.foldl karaokeStep s).orig = s.orig := by
  intro l
  induction l with
  | nil => intro s; rfl
  | cons i l ih =>
    intro s
    rw [List.foldl_cons, ih]
    rfl

/-- The left output channel evolves as a pure fold of index writes of the
channel difference. -/
theorem karaokeFold_leftOut :
    ∀ (l : List ℕ) (s : MSState),
      (l.foldl karaokeStep s).leftOut =
        l.foldl (fun acc i => acc.set i (sampleAt s.orig 0 i - sampleAt s.orig 1 i))
          s.leftOut := by
  intro l
  induction l with
  | nil => intro s; rfl
  | cons i l ih => intro s; rw [List.foldl_cons, ih, List.foldl_cons]; rfl

/-- The right output channel evolves as a pure fold of index writes of the
channel difference. -/
theorem karaokeFold_rightOut :
    ∀ (l : List ℕ) (s : MSState),
      (l.foldl karaokeStep s).rightOut =
        l.foldl (fun acc i => acc.set i (sampleAt s.orig 0 i - sampleAt s.orig 1 i))
          s.rightOut := by
  intro l
  induction l with
  | nil => intro s; rfl
  | cons i l ih => intro s; rw [List.foldl_cons, ih, List.foldl_cons]; rfl

/-- The loop leaves the input untouched and fills both output channels with
the per-index channel difference. -/
theorem karaokeLoop_spec (b : SampleBuffer) :
    (karaokeLoop b).orig = b ∧ (karaokeLoop b).leftOut = sideList b ∧
      (karaokeLoop b).rightOut = sideList b := by
  refine ⟨karaokeFold_orig _ _, ?_, ?_⟩
  · rw [karaokeLoop, karaokeFold_leftOut, sideList]
    exact foldl_set_range_map _ _ _ (by simp)
  · rw [karaokeLoop, karaokeFold_rightOut, sideList]
    exact foldl_set_range_map _ _ _ (by simp)

/-- C5: for every well-formed input buffer with at least 2 channels, the
vocal-suppression transform returns a new 2-channel buffer with the same frame
count and sample rate in which, for every sample index i, both output channels
equal left[i] - right[i]; the input buffer's channel data is not mutated (the
loop state's `orig` component is returned unchanged). -/
theorem createKaraokeBuffer_stereo (b : SampleBuffer)
    (h2 : 2 ≤ b.channels.length) (hwf : b.wellFormed) :
    (createKaraokeBuffer b).channels = [sideList b, sideList b] ∧
    (createKaraokeBuffer b).channels.length = 2 ∧
    (createKaraokeBuffer b).sampleRate = b.sampleRate ∧
    (createKaraokeBuffer b).length = b.length ∧
    (∀ i, i < b.length → ∀ ch ∈ (createKaraokeBuffer b).channels,
      ch.getD i 0 = sampleAt b 0 i - sampleAt b 1 i) ∧
    (karaokeLoop b).orig = b := by
  have hbranch : ¬ b.channels.length < 2 := not_lt.mpr h2
  obtain ⟨ho, hl, hr⟩ := karaokeLoop_spec b
  have hch : (createKaraokeBuffer b).channels = [sideList b, sideList b] := by
    rw [createKaraokeBuffer, if_neg hbranch, hl, hr]
  refine ⟨hch, by rw [hch]; rfl, by rw [createKaraokeBuffer, if_neg hbranch], ?_, ?_, ho⟩
  · rw [SampleBuffer.length, hch]
    simp [sideList]
  · intro i hi ch hch2
    rw [hch] at hch2
    have : ch = sideList b := by
      rcases List.mem_cons.mp hch2 with h | h
      · exact h
      · rcases List.mem_cons.mp h with h3 | h3
        · exact h3
        · simp at h3
    rw [this, sideList, getD_range_map _ _ _ hi]

/-- Witness for C5 on a concrete 2-frame stereo buffer. -/
theorem createKaraokeBuffer_stereo_witness :
    2 ≤ (⟨[[1, 1/2], [1/4, 0]], 44100⟩ : SampleBuffer).channels.length ∧
    (⟨[[1, 1/2], [1/4, 0]], 44100⟩ : SampleBuffer).wellFormed ∧
    (createKaraokeBuffer ⟨[[1, 1/2], [1/4, 0]], 44100⟩).channels =
      [sideList ⟨[[1, 1/2], [1/4, 0]], 44100⟩, sideList ⟨[[1, 1/2], [1/4, 0]], 44100⟩] ∧
    sideList ⟨[[1, 1/2], [1/4, 0]], 44100⟩ = [3/4, 1/2] := by
  have hwf : (⟨[[1, 1/2], [1/4, 0]], 44100⟩ : SampleBuffer).wellFormed := by
    intro c hc
    fin_cases hc <;> rfl
  refine ⟨by norm_num, hwf,
    (createKaraokeBuffer_stereo ⟨[[1, 1/2], [1/4, 0]], 44100⟩ (by norm_num) hwf).1, ?_⟩
  norm_num [sideList, sampleAt, SampleBuffer.length, List.range_succ]

/-- C7: for every well-formed stereo buffer, applying the vocal-suppression
transform with the two input channels swapped reproduces the sign-inverted
output of a single pass of the transform on the original buffer. -/
theorem createKaraokeBuffer_swap_neg (b : SampleBuffer)
    (h2 : 2 ≤ b.channels.length) (hwf : b.wellFormed) :
    (createKaraokeBuffer (swapFirstTwo b)).channels =
      (createKaraokeBuffer b).channels.map (List.map (fun x => -x)) ∧
    (createKaraokeBuffer (swapFirstTwo b)).sampleRate =
      (createKaraokeBuffer b).sampleRate := by
  obtain ⟨c0, c1, rest, hch⟩ : ∃ c0 c1 rest, b.channels = c0 :: c1 :: rest := by
    match hb : b.channels with
    | [] => rw [hb] at h2; simp at h2
    | [c0] => rw [hb] at h2; simp at h2
    | c0 :: c1 :: rest => exact ⟨c0, c1, rest, rfl⟩
  have hswapch : (swapFirstTwo b).channels = c1 :: c0 :: rest := by
    rw [swapFirstTwo, hch]
  have h2s : 2 ≤ (swapFirstTwo b).channels.length := by rw [hswapch]; simp
  have hlen : (swapFirstTwo b).length = b.length := by
    have hc1 : c1.length = b.length :=
      hwf c1 (by rw [hch]; exact List.mem_cons_of_mem _ (List.mem_cons_self _ _))
    rw [SampleBuffer.length, hswapch, List.headD_cons]
    exact hc1
  have hside : sideList (swapFirstTwo b) = (sideList b).map (fun x => -x) := by
    rw [sideList, sideList, hlen, List.map_map]
    apply List.map_congr_left
    intro i _
    simp only [Function.comp_apply, sampleAt, hswapch, hch]
    rw [List.getD_cons_zero, List.getD_cons_succ, List.getD_cons_zero,
      List.getD_cons_succ, List.getD_cons_zero, List.getD_cons_zero]
    ring
  have hb1 := (createKaraokeBuffer_stereo b h2 hwf).1
  have hb2 := (createKaraokeBuffer_stereo (swapFirstTwo b) h2s (by
    intro c hc
    rw [hswapch] at hc
    rw [hlen]
    rcases List.mem_cons.mp hc with h | h
    · rw [h]
      exact hwf c1 (by rw [hch]; exact List.mem_cons_of_mem _ (List.mem_cons_self _ _))
    · rcases List.mem_cons.mp h with h3 | h3
      · rw [h3]
        exact hwf c0 (by rw [hch]; exact List.mem_cons_self _ _)
      · exact hwf c (by rw [hch]; exact List.mem_cons_of_mem _ (List.mem_cons_of_mem _ h3)))).1
  constructor
  · rw [hb1, hb2, hside]
    rfl
  · rw [createKaraokeBuffer, createKaraokeBuffer, if_neg (not_lt.mpr h2),
      if_neg (not_lt.mpr h2s)]
    rfl

/-- Witness for C7 on a concrete 2-frame stereo buffer. -/
theorem createKaraokeBuffer_swap_neg_witness :
    2 ≤ (⟨[[1, 1/2], [1/4, 0]], 44100⟩ : SampleBuffer).channels.length ∧
    (createKaraokeBuffer (swapFirstTwo ⟨[[1, 1/2], [1/4, 0]], 44100⟩)).channels =
      (createKaraokeBuffer ⟨[[1, 1/2], [1/4, 0]], 44100⟩).channels.map
        (List.map (fun x => -x)) :=
  ⟨by norm_num,
   (createKaraokeBuffer_swap_neg ⟨[[1, 1/2], [1/4, 0]], 44100⟩ (by norm_num)
     (by intro c hc; fin_cases hc <;> rfl)).1⟩

/-- Every read of an all-zero channel yields 0. -/
theorem getD_replicate_zero : ∀ (n i : ℕ), (List.replicate n (0 : ℚ)).getD i 0 = 0
  | 0, _ => rfl
  | _ + 1, 0 => rfl
  | n + 1, i + 1 => getD_replicate_zero n i

/-- The silent sample encodes to the integer 0. -/
theorem encodeSample_zero : encodeSample 0 = 0 := by
  simp [encodeSample, truncJS]

/-- Every frame of an all-zero stereo buffer encodes to four zero bytes. -/
theorem frameBytes_zero (n r pos : ℕ) :
    frameBytes ⟨[List.replicate n 0, List.replicate n 0], r⟩ pos = [0, 0, 0, 0] := by
  simp [frameBytes, sampleAt, concatAll, List.range_succ, getD_replicate_zero,
    encodeSample_zero, i16LE, u16LE]

/-- Concatenating constant four-zero-byte blocks yields a zero run. -/
theorem concatAll_map_const (l : List ℕ) :
    concatAll (l.map (fun _ => [0, 0, 0, 0])) = List.replicate (4 * l.length) (0 : ℕ) := by
  induction l with
  | nil => rfl
  | cons x l ih =>
    show [0, 0, 0, 0] ++ concatAll (l.map (fun _ => [0, 0, 0, 0])) = _
    rw [ih, show 4 * (x :: l).length = 4 + 4 * l.length by simp; ring,
      List.replicate_add]
    rfl

/-- Encoding an all-zero stereo buffer: the 44-byte header followed by
`frames * 2 * 2` zero bytes (the copied frames and the unwritten tail are
indistinguishable here, all samples being zero). -/
theorem bufferToWav_zero (n r : ℕ) :
    bufferToWav ⟨[List.replicate n 0, List.replicate n 0], r⟩ =
      wavHeader 2 r n ++ List.replicate (n * 2 * 2) 0 := by
  have hlen : (⟨[List.replicate n 0, List.replicate n 0], r⟩ : SampleBuffer).length = n := by
    simp [SampleBuffer.length]
  have hnc : (⟨[List.replicate n 0, List.replicate n 0], r⟩ : SampleBuffer).channels.length = 2 := rfl
  have hbody : concatAll ((((List.range n).drop 44).map
      (frameBytes ⟨[List.replicate n 0, List.replicate n 0], r⟩))) =
      List.replicate (4 * (n - 44)) 0 := by
    rw [List.map_congr_left (fun pos _ => frameBytes_zero n r pos),
      concatAll_map_const]
    simp
  rw [bufferToWav]
  simp only [hlen, hnc, hbody, List.length_replicate]
  rw [List.append_assoc, ← List.replicate_add]
  congr 2
  omega


/-- Exporting the C1 buffer at volume 1 produces the header plus 352800 zero
bytes. -/
theorem exportTrack_zeroBuf_eq :
    exportTrack zeroBuf 1 = wavHeader 2 44100 88200 ++ List.replicate 352800 0 := by
  have hlen : zeroBuf.length = 88200 := List.length_replicate _ _
  have hrl : 44100 * zeroBuf.length / zeroBuf.sampleRate = 88200 := by
    rw [hlen, show zeroBuf.sampleRate = 44100 from rfl]
  have hmap : (List.replicate 88200 (0 : ℚ)).map (fun x => x * 1) =
      List.replicate 88200 (0 : ℚ) := by
    rw [List.map_replicate]
    exact congrArg _ (mul_one 0)
  have hch : resizeTo (List.replicate 88200 (0 : ℚ)) 88200 =
      List.replicate 88200 (0 : ℚ) := by
    rw [resizeTo, List.take_replicate, Nat.min_self, List.length_replicate,
      Nat.sub_self, List.replicate_zero, List.append_nil]
  rw [exportTrack]
  simp only [hrl]
  rw [show zeroBuf.channels.getD 0 [] = List.replicate 88200 (0 : ℚ) from rfl,
    show zeroBuf.channels.getD 1 [] = List.replicate 88200 (0 : ℚ) from rfl,
    hmap, hch, bufferToWav_zero,
    show 88200 * 2 * 2 = 352800 from rfl]

/-- C1 (amended): exporting a 2-channel, 2-second, 44100 Hz all-zero buffer
with karaoke mode off and volume 1.0 produces a 44-byte header followed by
exactly 2*2*44100*2 = 352800 bytes of zero-valued PCM data, with total length
352844 bytes. -/
theorem exportTrack_zero_scenario :
    exportTrack zeroBuf 1 = wavHeader 2 44100 88200 ++ List.replicate 352800 0 ∧
    (wavHeader 2 44100 88200).length = 44 ∧
    (exportTrack zeroBuf 1).drop 44 = List.replicate 352800 0 ∧
    (exportTrack zeroBuf 1).length = 352844 := by
  have hh : (wavHeader 2 44100 88200).length = 44 := rfl
  refine ⟨exportTrack_zeroBuf_eq, hh, ?_, ?_⟩
  · rw [exportTrack_zeroBuf_eq, ← hh, List.drop_left]
  · rw [exportTrack_zeroBuf_eq, List.length_append, hh, List.length_replicate]

/-- C1 counterexample: the total length of the exported byte stream for the
claim's concrete scenario is 352844, not the claimed 176444. -/
theorem exportTrack_zero_total_length_ne :
    (exportTrack zeroBuf 1).length ≠ 176444 := by
  rw [exportTrack_zeroBuf_eq, List.length_append,
    show (wavHeader 2 44100 88200).length = 44 from rfl, List.length_replicate]
  omega

/-- C2: the encoder's body is NOT all `frameCount` frames of PCM. For the
2-channel 1-frame buffer with both samples 1.0, the bytes after the 44-byte
header are four zero bytes, while the canonical body of §4.6 is the encoded
frame [255, 127, 255, 127]: the copy loop reuses `pos = 44` as its starting
frame index, skipping the first 44 frames and zero-filling the tail. (The
data sub-chunk length field itself does equal totalBytes - 44.) -/
theorem bufferToWav_body_drops_frames :
    (bufferToWav ⟨[[1], [1]], 44100⟩).drop 44 ≠ wavBodySpec ⟨[[1], [1]], 44100⟩ ∧
    (bufferToWav ⟨[[1], [1]], 44100⟩).drop 44 = [0, 0, 0, 0] ∧
    wavBodySpec ⟨[[1], [1]], 44100⟩ = [255, 127, 255, 127] := by
  have h1 : encodeSample 1 = 32767 := by
    simp only [encodeSample, truncJS]
    rw [show max (-1 : ℚ) (min 1 1) = 1 by norm_num,
      if_neg (show ¬ ((0.5 : ℚ) + 1 < 0) by norm_num),
      show (1 : ℚ) * 32767 = 32767 by norm_num,
      if_neg (show ¬ ((32767 : ℚ) < 0) by norm_num)]
    norm_num
  have h2 : wavBodySpec ⟨[[1], [1]], 44100⟩ = [255, 127, 255, 127] := by
    simp [wavBodySpec, frameBytes, concatAll, sampleAt, SampleBuffer.length,
      List.range_succ, h1, i16LE, u16LE]
  have h3 : (bufferToWav ⟨[[1], [1]], 44100⟩).drop 44 = [0, 0, 0, 0] := by decide
  refine ⟨?_, h3, h2⟩
  rw [h2, h3]
  decide

end ParodyPop
